import Mathlib

/-!
A shallow embedding of the read path of libloc (src/src/database.c and
src/src/libloc/private.h) together with proofs about it.

Modelling conventions:
* A 128-bit address (`struct in6_addr`) is its 16 bytes `s6_addr`, embedded
  as a `List Nat` whose elements are below 256; theorems carry the length
  and byte-bound hypotheses explicitly.
* A file is its byte sequence, a `List Nat`.
* Machine integers are `Nat`/`Int`; where C performs modular or bitwise
  arithmetic the reduction is written explicitly.
* Fallible C functions returning `int` error codes become `Except Int _`.
-/

namespace Libloc

/-- Big-endian value of a byte sequence (the 128-bit integer an address
denotes, and the value `ntohl`/`ntohs`/`be64toh` decode from the file). -/
def beNat : List Nat → Nat
  | [] => 0
  | b :: bs => b * 256 ^ bs.length + beNat bs

/-- `in6_addr_cmp` from src/src/libloc/private.h lines 61-71: compare the 16
bytes of two addresses from index 0 upward; return 1 at the first index where
the first is larger, -1 at the first index where it is smaller, 0 if no index
differs.  The C `for` loop over `i = 0..15` is embedded as structural
recursion over the two byte lists. -/
def in6_addr_cmp : List Nat → List Nat → Int
  | a :: as, b :: bs =>
      if a > b then 1
      else if a < b then -1
      else in6_addr_cmp as bs
  | _, _ => 0

/-- `in6_addr_get_bit` from src/src/libloc/private.h lines 73-75: bit `i` of
an address, counting from the most significant bit of byte 0
(`(s6_addr[i / 8] >> (7 - (i % 8))) & 1`). -/
def in6_addr_get_bit (address : List Nat) (i : Nat) : Nat :=
  (address.getD (i / 8) 0 >>> (7 - i % 8)) &&& 1

theorem beNat_lt (l : List Nat) (hb : ∀ x ∈ l, x < 256) :
    beNat l < 256 ^ l.length := by
  induction l with
  | nil => simp [beNat]
  | cons b bs ih =>
    have hb' : b < 256 := hb b (List.mem_cons_self _ _)
    have hbs : beNat bs < 256 ^ bs.length := ih fun x hx => hb x (List.mem_cons_of_mem _ hx)
    have h1 : b * 256 ^ bs.length + beNat bs < (b + 1) * 256 ^ bs.length := by
      have := Nat.add_lt_add_left hbs (b * 256 ^ bs.length)
      calc b * 256 ^ bs.length + beNat bs
          < b * 256 ^ bs.length + 256 ^ bs.length := this
        _ = (b + 1) * 256 ^ bs.length := by ring
    have h2 : (b + 1) * 256 ^ bs.length ≤ 256 * 256 ^ bs.length :=
      Nat.mul_le_mul_right _ hb'
    calc beNat (b :: bs) = b * 256 ^ bs.length + beNat bs := rfl
      _ < (b + 1) * 256 ^ bs.length := h1
      _ ≤ 256 * 256 ^ bs.length := h2
      _ = 256 ^ (b :: bs).length := by
          simp [List.length_cons, pow_succ]; ring

theorem in6_addr_cmp_trichotomy (a b : List Nat) :
    in6_addr_cmp a b = -1 ∨ in6_addr_cmp a b = 0 ∨ in6_addr_cmp a b = 1 := by
  induction a generalizing b with
  | nil => cases b <;> simp [in6_addr_cmp]
  | cons x xs ih =>
    cases b with
    | nil => simp [in6_addr_cmp]
    | cons y ys =>
      by_cases h1 : x > y
      · simp [in6_addr_cmp, h1]
      · by_cases h2 : x < y
        · simp [in6_addr_cmp, h1, h2]
        · simpa [in6_addr_cmp, h1, h2] using ih ys

theorem in6_addr_cmp_eq_zero_iff (a b : List Nat) (hlen : a.length = b.length) :
    in6_addr_cmp a b = 0 ↔ a = b := by
  induction a generalizing b with
  | nil =>
    cases b with
    | nil => simp [in6_addr_cmp]
    | cons y ys => simp at hlen
  | cons x xs ih =>
    cases b with
    | nil => simp at hlen
    | cons y ys =>
      by_cases h1 : x > y
      · simp [in6_addr_cmp, h1]
        omega
      · by_cases h2 : x < y
        · simp [in6_addr_cmp, h1, h2]
          omega
        · have hxy : x = y := by omega
          have := ih ys (by simpa using hlen)
          simp [in6_addr_cmp, h1, h2, hxy, this]

theorem in6_addr_cmp_eq_one_iff (a b : List Nat) (hlen : a.length = b.length)
    (ha : ∀ x ∈ a, x < 256) (hb : ∀ x ∈ b, x < 256) :
    in6_addr_cmp a b = 1 ↔ beNat b < beNat a := by
  induction a generalizing b with
  | nil =>
    cases b with
    | nil => simp [in6_addr_cmp, beNat]
    | cons y ys => simp at hlen
  | cons x xs ih =>
    cases b with
    | nil => simp at hlen
    | cons y ys =>
      have hlen' : xs.length = ys.length := by simpa using hlen
      have hxs : ∀ z ∈ xs, z < 256 := fun z hz => ha z (List.mem_cons_of_mem _ hz)
      have hys : ∀ z ∈ ys, z < 256 := fun z hz => hb z (List.mem_cons_of_mem _ hz)
      have hysb : beNat ys < 256 ^ ys.length := beNat_lt ys hys
      have hxsb : beNat xs < 256 ^ xs.length := beNat_lt xs hxs
      by_cases h1 : x > y
      · have : beNat (y :: ys) < beNat (x :: xs) := by
          show y * 256 ^ ys.length + beNat ys < x * 256 ^ xs.length + beNat xs
          have : (y + 1) * 256 ^ ys.length ≤ x * 256 ^ xs.length := by
            rw [hlen']
            exact Nat.mul_le_mul_right _ (by omega)
          calc y * 256 ^ ys.length + beNat ys
              < y * 256 ^ ys.length + 256 ^ ys.length := by omega
            _ = (y + 1) * 256 ^ ys.length := by ring
            _ ≤ x * 256 ^ xs.length := this
            _ ≤ x * 256 ^ xs.length + beNat xs := Nat.le_add_right _ _
        simp [in6_addr_cmp, h1, this]
      · by_cases h2 : x < y
        · have : beNat (x :: xs) < beNat (y :: ys) := by
            show x * 256 ^ xs.length + beNat xs < y * 256 ^ ys.length + beNat ys
            have : (x + 1) * 256 ^ xs.length ≤ y * 256 ^ ys.length := by
              rw [hlen']
              exact Nat.mul_le_mul_right _ (by omega)
            calc x * 256 ^ xs.length + beNat xs
                < x * 256 ^ xs.length + 256 ^ xs.length := by omega
              _ = (x + 1) * 256 ^ xs.length := by ring
              _ ≤ y * 256 ^ ys.length := this
              _ ≤ y * 256 ^ ys.length + beNat ys := Nat.le_add_right _ _
          simp [in6_addr_cmp, h1, h2]
          omega
        · have hxy : x = y := by omega
          have hiq := ih ys hlen' hxs hys
          subst hxy
          simp [in6_addr_cmp, beNat, hlen', hiq]

theorem in6_addr_cmp_antisymm (a b : List Nat) :
    in6_addr_cmp a b = -in6_addr_cmp b a := by
  induction a generalizing b with
  | nil => cases b <;> simp [in6_addr_cmp]
  | cons x xs ih =>
    cases b with
    | nil => simp [in6_addr_cmp]
    | cons y ys =>
      by_cases h1 : x > y
      · simp [in6_addr_cmp, h1, show ¬ y > x by omega, show y < x by omega]
      · by_cases h2 : x < y
        · simp [in6_addr_cmp, h1, h2, show y > x by omega]
        · simp [in6_addr_cmp, h1, h2, show ¬ y > x by omega, show ¬ y < x by omega,
            ih ys]

/-- C5: `in6_addr_cmp` returns -1, 0 or 1; it returns 0 exactly when the two
addresses are byte-for-byte equal, 1 exactly when the first is the larger
128-bit big-endian unsigned integer, -1 exactly when it is the smaller, and
it is antisymmetric: `cmp A B = -cmp B A`. -/
theorem in6_addr_cmp_spec (a b : List Nat)
    (hal : a.length = 16) (hbl : b.length = 16)
    (ha : ∀ x ∈ a, x < 256) (hb : ∀ x ∈ b, x < 256) :
    (in6_addr_cmp a b = -1 ∨ in6_addr_cmp a b = 0 ∨ in6_addr_cmp a b = 1) ∧
    (in6_addr_cmp a b = 0 ↔ a = b) ∧
    (in6_addr_cmp a b = 1 ↔ beNat a > beNat b) ∧
    (in6_addr_cmp a b = -1 ↔ beNat a < beNat b) ∧
    in6_addr_cmp a b = -in6_addr_cmp b a := by
  have hlen : a.length = b.length := by omega
  refine ⟨in6_addr_cmp_trichotomy a b,
    in6_addr_cmp_eq_zero_iff a b hlen,
    in6_addr_cmp_eq_one_iff a b hlen ha hb, ?_, in6_addr_cmp_antisymm a b⟩
  rw [in6_addr_cmp_antisymm a b]
  have := in6_addr_cmp_eq_one_iff b a hlen.symm hb ha
  constructor
  · intro h
    have : in6_addr_cmp b a = 1 := by omega
    exact (in6_addr_cmp_eq_one_iff b a hlen.symm hb ha).mp this
  · intro h
    have : in6_addr_cmp b a = 1 :=
      (in6_addr_cmp_eq_one_iff b a hlen.symm hb ha).mpr h
    rw [this]

/-- Witness for C5 at two concrete addresses. -/
theorem in6_addr_cmp_spec_witness :
    let a : List Nat := [0, 0, 0, 0, 0, 0, 0, 0, 0, 0, 255, 255, 10, 0, 0, 1]
    let b : List Nat := [0, 0, 0, 0, 0, 0, 0, 0, 0, 0, 255, 255, 10, 0, 0, 2]
    (in6_addr_cmp a b = -1 ∨ in6_addr_cmp a b = 0 ∨ in6_addr_cmp a b = 1) ∧
    (in6_addr_cmp a b = 0 ↔ a = b) ∧
    (in6_addr_cmp a b = 1 ↔ beNat a > beNat b) ∧
    (in6_addr_cmp a b = -1 ↔ beNat a < beNat b) ∧
    in6_addr_cmp a b = -in6_addr_cmp b a :=
  in6_addr_cmp_spec _ _ (by decide) (by decide) (by decide) (by decide)

/-- The byte-writing loop of `loc_prefix_to_bitmask` from
src/src/libloc/private.h lines 87-92: `for (int i = prefix, j = 0; i > 0;
i -= 8, j++)` writes byte `j` as `0xff` when `i >= 8` and as
`0xff << (8 - i)` truncated to a byte otherwise.  Successive writes to
`j = 0, 1, ...` are embedded as the list of bytes written, in order. -/
def loc_prefix_to_bitmask_loop (i : Int) : List Nat :=
  if h : i > 0 then
    (if i ≥ 8 then 255 else (255 <<< (8 - i).toNat) % 256) ::
      loc_prefix_to_bitmask_loop (i - 8)
  else []
termination_by i.toNat
decreasing_by omega

/-- `loc_prefix_to_bitmask` from src/src/libloc/private.h lines 81-95: all 16
bytes start at 0 and the loop overwrites the first bytes; the result is the
written bytes padded with zero bytes to length 16. -/
def loc_prefix_to_bitmask (p : Nat) : List Nat :=
  let written := loc_prefix_to_bitmask_loop (p : Int)
  written ++ List.replicate (16 - written.length) 0

/-- `loc_address_and` from src/src/libloc/private.h lines 97-106.  The C
operates on the four 32-bit words `s6_addr32` of the same 16 bytes; bitwise
AND on words equals bytewise AND on the underlying bytes, so the embedding
works on the bytes directly. -/
def loc_address_and (address bitmask : List Nat) : List Nat :=
  List.zipWith (fun x y => x &&& y) address bitmask

/-- `loc_address_or` from src/src/libloc/private.h lines 108-117:
`address | ~bitmask` on each 32-bit word.  The complement of a word
complements each of its bytes, and the complement of a byte `y < 256` is
`y ^^^ 255`. -/
def loc_address_or (address bitmask : List Nat) : List Nat :=
  List.zipWith (fun x y => x ||| (y ^^^ 255)) address bitmask

theorem loc_prefix_to_bitmask_loop_getD (j : Nat) : ∀ i : Int,
    (loc_prefix_to_bitmask_loop i).getD j 0 =
      if 8 * (j : Int) + 8 ≤ i then 255
      else if 8 * (j : Int) < i then (255 <<< ((8 : Int) - (i - 8 * j)).toNat) % 256
      else 0 := by
  induction j with
  | zero =>
    intro i
    rw [loc_prefix_to_bitmask_loop]
    by_cases h : i > 0
    · simp only [h, dite_true, List.getD_cons_zero]
      by_cases h8 : i ≥ 8
      · rw [if_pos h8, if_pos (by push_cast; omega)]
      · rw [if_neg h8, if_neg (by push_cast; omega), if_pos (by push_cast; omega)]
        norm_num
    · simp only [h, dite_false, List.getD_nil]
      rw [if_neg (by push_cast; omega), if_neg (by push_cast; omega)]
  | succ j ih =>
    intro i
    rw [loc_prefix_to_bitmask_loop]
    by_cases h : i > 0
    · simp only [h, dite_true, List.getD_cons_succ]
      rw [ih (i - 8)]
      by_cases c1 : 8 * (j : Int) + 8 ≤ i - 8
      · rw [if_pos c1, if_pos (by push_cast; omega)]
      · by_cases c2 : 8 * (j : Int) < i - 8
        · rw [if_neg c1, if_pos c2, if_neg (by push_cast; omega),
            if_pos (by push_cast; omega)]
          have harg : (8 : Int) - (i - 8 - 8 * j) = 8 - (i - 8 * ((j : Int) + 1)) := by
            ring
          rw [harg]
          norm_num
        · rw [if_neg c1, if_neg c2, if_neg (by push_cast; omega),
            if_neg (by push_cast; omega)]
    · simp only [h, dite_false, List.getD_nil]
      rw [if_neg (by push_cast; omega), if_neg (by push_cast; omega)]

theorem replicate_zero_getD (k j : Nat) : (List.replicate k (0 : Nat)).getD j 0 = 0 := by
  induction k generalizing j with
  | zero => simp
  | succ k ih =>
    cases j with
    | zero => simp [List.replicate]
    | succ j => simpa [List.replicate] using ih j

theorem append_replicate_zero_getD (w : List Nat) (k j : Nat) :
    (w ++ List.replicate k (0 : Nat)).getD j 0 = w.getD j 0 := by
  induction w generalizing j with
  | nil => simpa using replicate_zero_getD k j
  | cons x xs ih =>
    cases j with
    | zero => simp
    | succ j => simpa using ih j

theorem loc_prefix_to_bitmask_getD (p : Nat) (j : Nat) :
    (loc_prefix_to_bitmask p).getD j 0 =
      if 8 * (j : Int) + 8 ≤ (p : Int) then 255
      else if 8 * (j : Int) < (p : Int) then
        (255 <<< ((8 : Int) - ((p : Int) - 8 * j)).toNat) % 256
      else 0 := by
  unfold loc_prefix_to_bitmask
  rw [append_replicate_zero_getD, loc_prefix_to_bitmask_loop_getD]

theorem loc_prefix_to_bitmask_loop_length (n : Nat) : ∀ i : Int, i ≤ 8 * n →
    (loc_prefix_to_bitmask_loop i).length ≤ n := by
  induction n with
  | zero =>
    intro i hi
    rw [loc_prefix_to_bitmask_loop]
    have : ¬ i > 0 := by omega
    simp [this]
  | succ n ih =>
    intro i hi
    rw [loc_prefix_to_bitmask_loop]
    by_cases h : i > 0
    · simp only [h, dite_true, List.length_cons]
      have := ih (i - 8) (by push_cast at hi ⊢; omega)
      omega
    · simp [h]

theorem loc_prefix_to_bitmask_length (p : Nat) (hp : p ≤ 128) :
    (loc_prefix_to_bitmask p).length = 16 := by
  unfold loc_prefix_to_bitmask
  have := loc_prefix_to_bitmask_loop_length 16 (p : Int) (by push_cast; omega)
  simp only [List.length_append, List.length_replicate]
  omega

theorem loc_prefix_to_bitmask_bytes_lt (p : Nat) :
    ∀ b ∈ loc_prefix_to_bitmask p, b < 256 := by
  intro b hb
  obtain ⟨j, hj, hval⟩ := List.mem_iff_getElem.mp hb
  have hgd : (loc_prefix_to_bitmask p).getD j 0 = b := by
    rw [List.getD_eq_getElem?_getD, List.getElem?_eq_getElem hj, Option.getD_some, hval]
  rw [loc_prefix_to_bitmask_getD] at hgd
  split_ifs at hgd
  · omega
  · have : (255 <<< ((8 : Int) - ((p : Int) - 8 * j)).toNat) % 256 < 256 :=
      Nat.mod_lt _ (by norm_num)
    omega
  · omega

theorem shift_and_one_eq (x s : Nat) :
    (x >>> s) &&& 1 = if x.testBit s then 1 else 0 := by
  rw [Nat.and_one_is_mod, Nat.shiftRight_eq_div_pow, Nat.testBit_to_div_mod]
  rcases Nat.mod_two_eq_zero_or_one (x / 2 ^ s) with h | h <;> simp [h]

theorem top_bits_bit (r : Nat) (hr : r < 8) : (255 >>> (7 - r)) &&& 1 = 1 := by
  interval_cases r <;> decide

theorem mid_bits_bit : ∀ t < 8, ∀ r < 8, 0 < t →
    (((255 <<< (8 - t)) % 256) >>> (7 - r)) &&& 1 = if r < t then 1 else 0 := by
  decide

/-- Bit `k` (counting from the most significant bit) of the bitmask for a
prefix of length `p`: 1 exactly when `k < p`.  Shared between the statements
about `loc_prefix_to_bitmask` and the network/broadcast derivations. -/
theorem loc_prefix_to_bitmask_bit (p : Nat) (hp : p ≤ 128) (k : Nat) (hk : k < 128) :
    in6_addr_get_bit (loc_prefix_to_bitmask p) k = if k < p then 1 else 0 := by
  unfold in6_addr_get_bit
  rw [loc_prefix_to_bitmask_getD]
  have hr : k % 8 < 8 := Nat.mod_lt _ (by norm_num)
  have hk8 : 8 * (k / 8) + k % 8 = k := by omega
  by_cases c1 : 8 * ((k / 8 : Nat) : Int) + 8 ≤ (p : Int)
  · rw [if_pos c1, if_pos (by omega)]
    exact top_bits_bit _ hr
  · by_cases c2 : 8 * ((k / 8 : Nat) : Int) < (p : Int)
    · rw [if_neg c1, if_pos c2]
      have htn : ((8 : Int) - ((p : Int) - 8 * (k / 8 : Nat))).toNat
          = 8 - (p - 8 * (k / 8)) := by omega
      rw [htn]
      have := mid_bits_bit (p - 8 * (k / 8)) (by omega) (k % 8) hr (by omega)
      rw [this]
      by_cases hkp : k < p
      · rw [if_pos (by omega), if_pos hkp]
      · rw [if_neg (by omega), if_neg hkp]
    · rw [if_neg c1, if_neg c2, if_neg (by omega)]
      simp

set_option maxRecDepth 4000 in
/-- C6: for `0 ≤ p ≤ 128`, `loc_prefix_to_bitmask p` is the 128-bit mask whose
bit `i` (from the most significant bit) is 1 for `i < p` and 0 for `i ≥ p`;
`p = 0` gives the all-zero mask and `p = 128` the all-ones mask. -/
theorem loc_prefix_to_bitmask_spec (p : Nat) (hp : p ≤ 128) :
    (∀ k, k < 128 → in6_addr_get_bit (loc_prefix_to_bitmask p) k
        = if k < p then 1 else 0) ∧
    loc_prefix_to_bitmask 0 = List.replicate 16 0 ∧
    loc_prefix_to_bitmask 128 = List.replicate 16 255 := by
  refine ⟨fun k hk => loc_prefix_to_bitmask_bit p hp k hk, ?_, ?_⟩
  · unfold loc_prefix_to_bitmask
    rw [loc_prefix_to_bitmask_loop]
    norm_num
  · unfold loc_prefix_to_bitmask
    have h16 : loc_prefix_to_bitmask_loop ((128 : Nat) : Int) = List.replicate 16 255 := by
      rw [loc_prefix_to_bitmask_loop, loc_prefix_to_bitmask_loop,
        loc_prefix_to_bitmask_loop, loc_prefix_to_bitmask_loop,
        loc_prefix_to_bitmask_loop, loc_prefix_to_bitmask_loop,
        loc_prefix_to_bitmask_loop, loc_prefix_to_bitmask_loop,
        loc_prefix_to_bitmask_loop, loc_prefix_to_bitmask_loop,
        loc_prefix_to_bitmask_loop, loc_prefix_to_bitmask_loop,
        loc_prefix_to_bitmask_loop, loc_prefix_to_bitmask_loop,
        loc_prefix_to_bitmask_loop, loc_prefix_to_bitmask_loop,
        loc_prefix_to_bitmask_loop]
      norm_num
      decide
    rw [h16]
    norm_num

/-- Witness for C6 at the concrete prefix length 7. -/
theorem loc_prefix_to_bitmask_spec_witness :
    7 ≤ 128 ∧
    ((∀ k, k < 128 → in6_addr_get_bit (loc_prefix_to_bitmask 7) k
        = if k < 7 then 1 else 0) ∧
    loc_prefix_to_bitmask 0 = List.replicate 16 0 ∧
    loc_prefix_to_bitmask 128 = List.replicate 16 255) :=
  ⟨by norm_num, loc_prefix_to_bitmask_spec 7 (by norm_num)⟩

theorem getD_zipWith_of_lt (f : Nat → Nat → Nat) (a b : List Nat) (j : Nat)
    (ha : j < a.length) (hb : j < b.length) :
    (List.zipWith f a b).getD j 0 = f (a.getD j 0) (b.getD j 0) := by
  rw [List.getD_eq_getElem?_getD, List.getD_eq_getElem?_getD, List.getD_eq_getElem?_getD,
    List.getElem?_zipWith, List.getElem?_eq_getElem ha, List.getElem?_eq_getElem hb]
  simp

theorem getD_eq_zero_of_le (l : List Nat) (j : Nat) (h : l.length ≤ j) :
    l.getD j 0 = 0 := by
  rw [List.getD_eq_getElem?_getD, List.getElem?_eq_none h]
  rfl

theorem in6_addr_cmp_le_zero_of_pointwise (a : List Nat) : ∀ b : List Nat,
    (∀ j, a.getD j 0 ≤ b.getD j 0) → in6_addr_cmp a b ≤ 0 := by
  induction a with
  | nil => intro b h; cases b <;> simp [in6_addr_cmp]
  | cons x xs ih =>
    intro b h
    cases b with
    | nil => simp [in6_addr_cmp]
    | cons y ys =>
      have h0 : x ≤ y := by simpa using h 0
      by_cases h1 : x > y
      · omega
      · by_cases h2 : x < y
        · simp [in6_addr_cmp, h1, h2]
        · have := ih ys (fun j => by simpa using h (j + 1))
          simpa [in6_addr_cmp, h1, h2] using this

theorem testBit_byte_complement (y s : Nat) (hs : s < 8) :
    (y ^^^ 255).testBit s = ! y.testBit s := by
  have h255 : (255 : Nat) = 2 ^ 8 - 1 := by norm_num
  rw [Nat.testBit_xor, h255, Nat.testBit_two_pow_sub_one]
  simp [hs]

/-- C7: for an address `A` and prefix length `p ≤ 128`, with
`M = loc_prefix_to_bitmask p`, the network address `loc_address_and A M` and
the broadcast address `loc_address_or A M` agree with `A` on the first `p`
bits; the network address has every later bit 0 and the broadcast address
every later bit 1; and under `in6_addr_cmp` they bracket `A`. -/
theorem loc_address_and_or_spec (A : List Nat) (p : Nat)
    (hlen : A.length = 16) (hA : ∀ x ∈ A, x < 256) (hp : p ≤ 128) :
    (∀ i, i < p →
      in6_addr_get_bit (loc_address_and A (loc_prefix_to_bitmask p)) i
        = in6_addr_get_bit A i ∧
      in6_addr_get_bit (loc_address_or A (loc_prefix_to_bitmask p)) i
        = in6_addr_get_bit A i) ∧
    (∀ i, p ≤ i → i < 128 →
      in6_addr_get_bit (loc_address_and A (loc_prefix_to_bitmask p)) i = 0 ∧
      in6_addr_get_bit (loc_address_or A (loc_prefix_to_bitmask p)) i = 1) ∧
    in6_addr_cmp (loc_address_and A (loc_prefix_to_bitmask p)) A ≤ 0 ∧
    in6_addr_cmp A (loc_address_or A (loc_prefix_to_bitmask p)) ≤ 0 := by
  have hMlen : (loc_prefix_to_bitmask p).length = 16 := loc_prefix_to_bitmask_length p hp
  have hmask_tb : ∀ i, i < 128 →
      ((loc_prefix_to_bitmask p).getD (i / 8) 0).testBit (7 - i % 8) = decide (i < p) := by
    intro i hi
    have hmask := loc_prefix_to_bitmask_bit p hp i hi
    rw [in6_addr_get_bit, shift_and_one_eq] at hmask
    by_cases hm : ((loc_prefix_to_bitmask p).getD (i / 8) 0).testBit (7 - i % 8)
    · rw [hm]
      rw [if_pos hm] at hmask
      by_cases hip : i < p
      · simp [hip]
      · rw [if_neg hip] at hmask; omega
    · rw [Bool.eq_false_iff.mpr hm]
      rw [if_neg hm] at hmask
      by_cases hip : i < p
      · rw [if_pos hip] at hmask; omega
      · simp [hip]
  have hand_byte : ∀ i, i < 128 →
      (loc_address_and A (loc_prefix_to_bitmask p)).getD (i / 8) 0
        = A.getD (i / 8) 0 &&& (loc_prefix_to_bitmask p).getD (i / 8) 0 := by
    intro i hi
    exact getD_zipWith_of_lt _ _ _ _ (by omega) (by omega)
  have hor_byte : ∀ i, i < 128 →
      (loc_address_or A (loc_prefix_to_bitmask p)).getD (i / 8) 0
        = A.getD (i / 8) 0 ||| ((loc_prefix_to_bitmask p).getD (i / 8) 0 ^^^ 255) := by
    intro i hi
    exact getD_zipWith_of_lt _ _ _ _ (by omega) (by omega)
  refine ⟨?_, ?_, ?_, ?_⟩
  · intro i hip
    have hi : i < 128 := by omega
    have hmtb := hmask_tb i hi
    rw [decide_eq_true hip] at hmtb
    constructor
    · rw [in6_addr_get_bit, in6_addr_get_bit, hand_byte i hi, shift_and_one_eq,
        shift_and_one_eq, Nat.testBit_and, hmtb, Bool.and_true]
    · rw [in6_addr_get_bit, in6_addr_get_bit, hor_byte i hi, shift_and_one_eq,
        shift_and_one_eq, Nat.testBit_or,
        testBit_byte_complement _ _ (by omega), hmtb]
      simp
  · intro i hpi hi
    have hmtb := hmask_tb i hi
    rw [decide_eq_false (by omega)] at hmtb
    constructor
    · rw [in6_addr_get_bit, hand_byte i hi, shift_and_one_eq, Nat.testBit_and, hmtb,
        Bool.and_false]
      rfl
    · rw [in6_addr_get_bit, hor_byte i hi, shift_and_one_eq, Nat.testBit_or,
        testBit_byte_complement _ _ (by omega), hmtb]
      simp
  · apply in6_addr_cmp_le_zero_of_pointwise
    intro j
    simp only [loc_address_and]
    by_cases hj : j < 16
    · rw [getD_zipWith_of_lt _ _ _ _ (by omega) (by omega)]
      exact Nat.and_le_left
    · rw [getD_eq_zero_of_le _ _ (by rw [List.length_zipWith]; omega)]
      exact Nat.zero_le _
  · apply in6_addr_cmp_le_zero_of_pointwise
    intro j
    simp only [loc_address_or]
    by_cases hj : j < 16
    · rw [getD_zipWith_of_lt _ _ _ _ (by omega) (by omega)]
      refine Nat.le_of_testBit fun i hi => ?_
      rw [Nat.testBit_or, hi, Bool.true_or]
    · rw [getD_eq_zero_of_le A _ (by omega)]
      exact Nat.zero_le _

/-- Witness for C7 at a concrete address and prefix length. -/
theorem loc_address_and_or_spec_witness :
    let A : List Nat := [32, 1, 13, 184, 0, 0, 0, 0, 0, 0, 0, 0, 0, 0, 0, 1]
    (∀ i, i < 32 →
      in6_addr_get_bit (loc_address_and A (loc_prefix_to_bitmask 32)) i
        = in6_addr_get_bit A i ∧
      in6_addr_get_bit (loc_address_or A (loc_prefix_to_bitmask 32)) i
        = in6_addr_get_bit A i) ∧
    (∀ i, 32 ≤ i → i < 128 →
      in6_addr_get_bit (loc_address_and A (loc_prefix_to_bitmask 32)) i = 0 ∧
      in6_addr_get_bit (loc_address_or A (loc_prefix_to_bitmask 32)) i = 1) ∧
    in6_addr_cmp (loc_address_and A (loc_prefix_to_bitmask 32)) A ≤ 0 ∧
    in6_addr_cmp A (loc_address_or A (loc_prefix_to_bitmask 32)) ≤ 0 :=
  loc_address_and_or_spec _ 32 (by decide) (by decide) (by decide)

/-! ## The database read path (src/src/database.c) -/

def ENOMSG : Int := 42

def EINVAL : Int := 22

/-- One AS record of the v0 format: `asn` and `name` (a string-pool offset),
each a big-endian u32 on disk, 8 bytes in total (record size from the spec;
`struct loc_database_as_v0` is declared in `format.h`, which is not in src/).
Fields hold the already byte-order-converted values. -/
structure loc_database_as_v0 where
  asn : Nat
  name : Nat
deriving DecidableEq

instance : Inhabited loc_database_as_v0 := ⟨⟨0, 0⟩⟩

/-- An AS object as handed to callers: its number and its name as resolved
through the string pool (absent when the pool offset does not resolve). -/
structure loc_as where
  number : Nat
  name : Option (List Nat)
deriving DecidableEq

/-- The reader state `struct loc_database` from src/src/database.c lines
37-52: format version, header metadata, string pool, the mapped AS record
view `as_v0` and the record count `as_count`. -/
structure loc_database where
  version : Nat
  created_at : Nat
  vendor : Nat
  description : Nat
  pool : List Nat
  as_v0 : List loc_database_as_v0
  as_count : Nat
deriving DecidableEq

/-- Modelled from the spec: `loc_stringpool_get` (src/stringpool.c is not in
src/): the string starting at `offset`, bounded by the next NUL; absent when
the offset is out of range or no NUL terminator exists before the pool end. -/
def loc_stringpool_get (pool : List Nat) (offset : Nat) : Option (List Nat) :=
  if offset < pool.length ∧ 0 ∈ pool.drop offset then
    some ((pool.drop offset).takeWhile (· ≠ 0))
  else none

/-- Modelled from the spec: `loc_as_new_from_database_v0` (src/as.c is not in
src/): an AS whose number is the record's ASN and whose name is the record's
name offset resolved through the string pool. -/
def loc_as_new_from_database_v0 (pool : List Nat) (r : loc_database_as_v0) : loc_as :=
  { number := r.asn, name := loc_stringpool_get pool r.name }

/-- `loc_database_fetch_as` from src/src/database.c lines 250-271: reject a
position at or past `as_count` with `-EINVAL` (the C compares
`(size_t)pos >= db->as_count`, so a negative `pos`, converted to a huge
unsigned value, is rejected the same way); otherwise build the AS from the
record at `pos` when the version is 0, and fail for any other version. -/
def loc_database_fetch_as (db : loc_database) (pos : Int) : Except Int loc_as :=
  if 0 ≤ pos ∧ pos < (db.as_count : Int) then
    match db.version with
    | 0 => .ok (loc_as_new_from_database_v0 db.pool (db.as_v0.getD pos.toNat default))
    | _ => .error (-1)
  else .error (-EINVAL)

/-- The `while (lo <= hi)` binary-search loop of `loc_database_get_as`
(src/src/database.c lines 278-299).  `lo` and `hi` are `off_t`, embedded as
`Int`.  `i = (lo + hi) / 2`: in every reachable state `lo + hi ≥ 0`, where the
C truncating division and Lean's integer division agree. -/
def loc_database_get_as_loop (db : loc_database) (number : Nat) (lo hi : Int) :
    Except Int (Option loc_as) :=
  if h : lo ≤ hi then
    match loc_database_fetch_as db ((lo + hi) / 2) with
    | .error r => .error r
    | .ok as =>
      if as.number = number then .ok (some as)
      else if as.number < number then
        loc_database_get_as_loop db number ((lo + hi) / 2 + 1) hi
      else
        loc_database_get_as_loop db number lo ((lo + hi) / 2 - 1)
  else .ok none
termination_by (hi + 1 - lo).toNat
decreasing_by
  · have h1 : 2 * lo ≤ lo + hi := by omega
    have h2 : (2 * lo) / 2 ≤ (lo + hi) / 2 := Int.ediv_le_ediv (by norm_num) h1
    rw [Int.mul_ediv_cancel_left lo (by norm_num)] at h2
    omega
  · have h1 : lo + hi ≤ 2 * hi := by omega
    have h2 : (lo + hi) / 2 ≤ (2 * hi) / 2 := Int.ediv_le_ediv (by norm_num) h1
    rw [Int.mul_ediv_cancel_left hi (by norm_num)] at h2
    omega

/-- `loc_database_get_as` from src/src/database.c lines 274-305.  The C
initialises `hi = db->as_count - 1` in `size_t` arithmetic and stores it in a
signed `off_t`, so an empty table yields `hi = -1`; embedded as
`(as_count : Int) - 1`. -/
def loc_database_get_as (db : loc_database) (number : Nat) :
    Except Int (Option loc_as) :=
  loc_database_get_as_loop db number 0 ((db.as_count : Int) - 1)

/-- `loc_database_count_as` from src/src/database.c lines 245-247. -/
def loc_database_count_as (db : loc_database) : Nat := db.as_count

/-! ## Opening a database file -/

/-- The magic string `LOCDBXX` (7 ASCII bytes). -/
def LOC_DATABASE_MAGIC : List Nat := [76, 79, 67, 68, 66, 88, 88]

/-- Size of the magic structure: 7 magic bytes plus a big-endian u16 version
(modelled from the spec: `struct loc_database_magic` is declared in
`format.h`, which is not in src/). -/
def LOC_DATABASE_MAGIC_SIZE : Nat := 9

/-- `loc_database_read_magic` from src/src/database.c lines 54-82: fail with
`-ENOMSG` when the file holds fewer bytes than the magic structure; parse and
return the version when the leading bytes equal the magic string; fail with
the positive error 1 otherwise. -/
def loc_database_read_magic (file : List Nat) : Except Int Nat :=
  if file.length < LOC_DATABASE_MAGIC_SIZE then .error (-ENOMSG)
  else if file.take 7 = LOC_DATABASE_MAGIC then .ok (beNat ((file.drop 7).take 2))
  else .error 1

/-- Parse the 8-byte v0 AS records out of the mapped section bytes, in order;
trailing bytes that do not fill a whole record yield none.  `asn` and `name`
are read big-endian (`ntohl`). -/
def parse_as_records : List Nat → List loc_database_as_v0
  | a0 :: a1 :: a2 :: a3 :: n0 :: n1 :: n2 :: n3 :: rest =>
    { asn := beNat [a0, a1, a2, a3], name := beNat [n0, n1, n2, n3] }
      :: parse_as_records rest
  | _ => []

/-- The system page size (4096, the common value on the platforms libloc
targets); POSIX requires the file offset passed to `mmap` to be a multiple of
it. -/
def PAGE_SIZE : Nat := 4096

/-- `loc_database_read_as_section_v0` from src/src/database.c lines 84-101:
when `as_length > 0`, `mmap` `as_length` bytes at file offset `as_offset`,
returning `-errno` on `MAP_FAILED`; then set
`as_count = as_length / sizeof(struct loc_database_as_v0)` (the record is 8
bytes).  A zero `as_length` skips the mapping entirely.  The `mmap` model
follows POSIX: the call fails with `EINVAL` when the file offset is not a
multiple of the page size; it performs no validation of the range against the
file size (mapping a range that extends past the end of the file succeeds at
call time, only a later access faults), and environment-dependent failures
such as `ENOMEM` are outside the model.  The record view is the file bytes at
the mapped range. -/
def loc_database_read_as_section_v0 (file : List Nat) (as_offset as_length : Nat) :
    Except Int (List loc_database_as_v0 × Nat) :=
  if 0 < as_length ∧ as_offset % PAGE_SIZE ≠ 0 then .error (-EINVAL)
  else .ok (parse_as_records ((file.drop as_offset).take as_length), as_length / 8)

/-- Modelled from the spec: the v0 header layout (`struct
loc_database_header_v0` lives in `format.h`, not in src/).  Field order
follows the spec's header listing with the v1-only fields omitted: vendor and
description (u32 string-pool offsets), created_at (u64), pool offset and
length, AS offset and length (u32 each); 32 bytes in total, big-endian. -/
structure loc_database_header_v0 where
  vendor : Nat
  description : Nat
  created_at : Nat
  pool_offset : Nat
  pool_length : Nat
  as_offset : Nat
  as_length : Nat

def LOC_DATABASE_HEADER_V0_SIZE : Nat := 32

def parse_header_v0 (bytes : List Nat) : loc_database_header_v0 :=
  { vendor := beNat (bytes.take 4)
  , description := beNat ((bytes.drop 4).take 4)
  , created_at := beNat ((bytes.drop 8).take 8)
  , pool_offset := beNat ((bytes.drop 16).take 4)
  , pool_length := beNat ((bytes.drop 20).take 4)
  , as_offset := beNat ((bytes.drop 24).take 4)
  , as_length := beNat ((bytes.drop 28).take 4) }

/-- Modelled from the spec: `loc_stringpool_read` (src/stringpool.c is not in
src/) backs the reader pool directly by the file bytes at the declared range;
it performs no validation of the range against the file. -/
def loc_stringpool_read (file : List Nat) (offset length : Nat) : List Nat :=
  (file.drop offset).take length

/-- `loc_database_read_header_v0` from src/src/database.c lines 103-140: read
the header that follows the magic (failing with `-ENOMSG` when the file is
too short), copy `created_at`, `vendor` and `description`, read the string
pool and the AS section at the offsets and lengths the header declares.  No
validation of any declared section offset or length against the file bounds,
or against any other section, is performed anywhere on this path; the only
failure of the AS-section read is the `mmap` call itself. -/
def loc_database_read_header_v0 (file : List Nat) : Except Int loc_database :=
  if ((file.drop LOC_DATABASE_MAGIC_SIZE).take LOC_DATABASE_HEADER_V0_SIZE).length
      < LOC_DATABASE_HEADER_V0_SIZE then .error (-ENOMSG)
  else
    match loc_database_read_as_section_v0 file
        (parse_header_v0 ((file.drop LOC_DATABASE_MAGIC_SIZE).take
          LOC_DATABASE_HEADER_V0_SIZE)).as_offset
        (parse_header_v0 ((file.drop LOC_DATABASE_MAGIC_SIZE).take
          LOC_DATABASE_HEADER_V0_SIZE)).as_length with
    | .error r => .error r
    | .ok (recs, cnt) =>
      .ok { version := 0
          , created_at := (parse_header_v0 ((file.drop LOC_DATABASE_MAGIC_SIZE).take
              LOC_DATABASE_HEADER_V0_SIZE)).created_at
          , vendor := (parse_header_v0 ((file.drop LOC_DATABASE_MAGIC_SIZE).take
              LOC_DATABASE_HEADER_V0_SIZE)).vendor
          , description := (parse_header_v0 ((file.drop LOC_DATABASE_MAGIC_SIZE).take
              LOC_DATABASE_HEADER_V0_SIZE)).description
          , pool := loc_stringpool_read file
              (parse_header_v0 ((file.drop LOC_DATABASE_MAGIC_SIZE).take
                LOC_DATABASE_HEADER_V0_SIZE)).pool_offset
              (parse_header_v0 ((file.drop LOC_DATABASE_MAGIC_SIZE).take
                LOC_DATABASE_HEADER_V0_SIZE)).pool_length
          , as_v0 := recs
          , as_count := cnt }

/-- `loc_database_read_header` from src/src/database.c lines 142-151: dispatch
on the version read from the magic; only version 0 is recognised, every other
version fails with the positive error 1. -/
def loc_database_read_header (file : List Nat) (version : Nat) :
    Except Int loc_database :=
  match version with
  | 0 => loc_database_read_header_v0 file
  | _ => .error 1

/-- `loc_database_new` from src/src/database.c lines 162-197 (the read path;
the file-handle duplication is I/O plumbing with no bearing on the parsed
result): read the magic, then the header; on any error the caller receives
the error and no database object. -/
def loc_database_new (file : List Nat) : Except Int loc_database :=
  match loc_database_read_magic file with
  | .error r => .error r
  | .ok version =>
    match loc_database_read_header file version with
    | .error r => .error r
    | .ok db => .ok db

/-! ## Theorems about the open path -/

/-- C3: a file shorter than the magic structure, or whose leading bytes do
not equal the magic string, fails to open with a nonzero error and the caller
receives no database object; a zero-byte file fails this way. -/
theorem loc_database_new_not_a_database (file : List Nat)
    (h : file.length < LOC_DATABASE_MAGIC_SIZE ∨ file.take 7 ≠ LOC_DATABASE_MAGIC) :
    ∃ e : Int, e ≠ 0 ∧ loc_database_new file = .error e := by
  unfold loc_database_new loc_database_read_magic
  by_cases hs : file.length < LOC_DATABASE_MAGIC_SIZE
  · exact ⟨-ENOMSG, by norm_num [ENOMSG], by simp [hs]⟩
  · have hm : file.take 7 ≠ LOC_DATABASE_MAGIC := h.resolve_left hs
    exact ⟨1, by norm_num, by simp [hs, hm]⟩

/-- Witness for C3 at the zero-byte file. -/
theorem loc_database_new_not_a_database_witness :
    ∃ e : Int, e ≠ 0 ∧ loc_database_new [] = .error e :=
  loc_database_new_not_a_database [] (Or.inl (by decide))

/-- A well-formed version-0 file: magic, version 0, an all-zero 32-byte
header (every section offset and length 0). -/
def exampleFileV0 : List Nat := LOC_DATABASE_MAGIC ++ [0, 0] ++ List.replicate 32 0

/-- The same file carrying version 1. -/
def exampleFileV1 : List Nat := LOC_DATABASE_MAGIC ++ [0, 1] ++ List.replicate 32 0

/-- C2 counterexample: a version-0 file opens successfully, although the
claim says version 0 is rejected with an UnsupportedVersion error; and a
version-1 file is rejected, although the claim says opening succeeds exactly
for version 1. -/
theorem version_claim_counterexample :
    (∃ db, loc_database_new exampleFileV0 = .ok db) ∧
    loc_database_new exampleFileV1 = .error 1 :=
  ⟨⟨{ version := 0, created_at := 0, vendor := 0, description := 0,
      pool := [], as_v0 := [], as_count := 0 }, by rfl⟩, by rfl⟩

theorem loc_database_read_header_v0_version (file : List Nat) (db : loc_database)
    (h : loc_database_read_header_v0 file = .ok db) : db.version = 0 := by
  unfold loc_database_read_header_v0 at h
  split at h
  · exact absurd h (by simp)
  · split at h
    · exact absurd h (by simp)
    · cases h
      rfl

/-- C2 (amended): opening succeeds only when the parsed version number is 0;
every other version number (version 1 included) is rejected with the error 1. -/
theorem loc_database_version_gate :
    (∀ file v, loc_database_read_magic file = .ok v → v ≠ 0 →
      loc_database_new file = .error 1) ∧
    (∀ file db, loc_database_new file = .ok db → db.version = 0) := by
  constructor
  · intro file v hm hv
    unfold loc_database_new
    rw [hm]
    cases v with
    | zero => exact absurd rfl hv
    | succ n => simp [loc_database_read_header]
  · intro file db h
    unfold loc_database_new at h
    cases hm : loc_database_read_magic file with
    | error r => rw [hm] at h; exact absurd h (by simp)
    | ok v =>
      rw [hm] at h
      cases v with
      | zero =>
        simp only [loc_database_read_header] at h
        cases hh : loc_database_read_header_v0 file with
        | error r => rw [hh] at h; exact absurd h (by simp)
        | ok db' =>
          rw [hh] at h
          simp only [Except.ok.injEq] at h
          subst h
          exact loc_database_read_header_v0_version file db' hh
      | succ n =>
        simp [loc_database_read_header] at h

/-- Witness for C2 (amended): the version-1 file is rejected with error 1,
and the database opened from the version-0 file carries version 0. -/
theorem loc_database_version_gate_witness :
    loc_database_new exampleFileV1 = .error 1 ∧
    ({ version := 0, created_at := 0, vendor := 0, description := 0,
       pool := [], as_v0 := [], as_count := 0 } : loc_database).version = 0 :=
  ⟨loc_database_version_gate.1 exampleFileV1 1 (by rfl) (by decide),
   loc_database_version_gate.2 exampleFileV0 _ (by rfl)⟩

/-- A 41-byte file whose header declares the AS section at offset 0 with
length 32 — page-aligned and entirely inside the file, so its mapping
succeeds — and the pool section at offset 9 with length 23: the AS range
`[0, 32)` and the pool range `[9, 32)` overlap (the AS section even covers
the magic and most of the header). -/
def exampleFileOverlap : List Nat :=
  LOC_DATABASE_MAGIC ++ [0, 0] ++
    ([0, 0, 0, 0] ++ [0, 0, 0, 0] ++ [0, 0, 0, 0, 0, 0, 0, 0] ++
     [0, 0, 0, 9] ++ [0, 0, 0, 23] ++ [0, 0, 0, 0] ++ [0, 0, 0, 32])

/-- C4 counterexample: in `exampleFileOverlap` the declared AS section
`[0, 32)` (offset 0 is a multiple of the page size and the range lies inside
the 41-byte file, so the `mmap` call succeeds) overlaps the declared pool
section `[9, 32)`, yet opening succeeds instead of failing with an
InvalidData error. -/
theorem section_validation_counterexample :
    (parse_header_v0 ((exampleFileOverlap.drop 9).take 32)).pool_offset = 9 ∧
    (parse_header_v0 ((exampleFileOverlap.drop 9).take 32)).pool_length = 23 ∧
    (parse_header_v0 ((exampleFileOverlap.drop 9).take 32)).as_offset = 0 ∧
    (parse_header_v0 ((exampleFileOverlap.drop 9).take 32)).as_length = 32 ∧
    exampleFileOverlap.length = 41 ∧
    (∃ db, loc_database_new exampleFileOverlap = .ok db) :=
  ⟨by rfl, by rfl, by rfl, by rfl, by rfl, ⟨_, by rfl⟩⟩

/-- C4 (amended): the v0 open procedure performs no validation of the
declared section offsets and lengths against the file bounds or against other
sections: every file with matching magic, version 0, a complete header and a
mappable AS section (its declared offset page-aligned, or its declared length
zero, so that the `mmap` call itself does not fail) opens successfully,
whatever sections the header declares — out-of-bounds or overlapping sections
included. -/
theorem no_section_validation (file : List Nat)
    (hmagic : file.take 7 = LOC_DATABASE_MAGIC)
    (hversion : beNat ((file.drop 7).take 2) = 0)
    (hlen : LOC_DATABASE_MAGIC_SIZE + LOC_DATABASE_HEADER_V0_SIZE ≤ file.length)
    (hmap : (parse_header_v0 ((file.drop LOC_DATABASE_MAGIC_SIZE).take
        LOC_DATABASE_HEADER_V0_SIZE)).as_length = 0 ∨
      (parse_header_v0 ((file.drop LOC_DATABASE_MAGIC_SIZE).take
        LOC_DATABASE_HEADER_V0_SIZE)).as_offset % PAGE_SIZE = 0) :
    ∃ db, loc_database_new file = .ok db := by
  have hlen' : 41 ≤ file.length := by
    simpa [LOC_DATABASE_MAGIC_SIZE, LOC_DATABASE_HEADER_V0_SIZE] using hlen
  unfold loc_database_new loc_database_read_magic
  rw [if_neg (by simp [LOC_DATABASE_MAGIC_SIZE]; omega), if_pos hmagic, hversion]
  simp only [loc_database_read_header]
  unfold loc_database_read_header_v0
  rw [if_neg (by
    simp only [List.length_take, List.length_drop, LOC_DATABASE_MAGIC_SIZE,
      LOC_DATABASE_HEADER_V0_SIZE]
    omega)]
  rw [loc_database_read_as_section_v0,
    if_neg (by rcases hmap with hh | hh <;> simp [hh])]
  exact ⟨_, rfl⟩

/-- Witness for C4 (amended) at the concrete overlapping file (whose AS
section offset 0 is page-aligned). -/
theorem no_section_validation_witness :
    ∃ db, loc_database_new exampleFileOverlap = .ok db :=
  no_section_validation exampleFileOverlap (by rfl) (by rfl) (by decide)
    (Or.inr (by decide))

theorem parse_as_records_length (bytes : List Nat) :
    (parse_as_records bytes).length = bytes.length / 8 := by
  induction bytes using parse_as_records.induct with
  | case1 a0 a1 a2 a3 n0 n1 n2 n3 rest ih =>
    show (parse_as_records rest).length + 1 = _
    simp only [List.length_cons, ih]
    omega
  | case2 bytes h =>
    have hlen : bytes.length < 8 := by
      rcases bytes with _ | ⟨b0, _ | ⟨b1, _ | ⟨b2, _ | ⟨b3, _ | ⟨b4, _ | ⟨b5, _ | ⟨b6, _ | ⟨b7, rest⟩⟩⟩⟩⟩⟩⟩⟩
      · simp
      · simp
      · simp
      · simp
      · simp
      · simp
      · simp
      · simp
      · exact (h b0 b1 b2 b3 b4 b5 b6 b7 rest rfl).elim
    rw [parse_as_records]
    · simp
      omega
    · exact h

/-- A 41-byte file whose header declares a 12-byte AS section — not a
multiple of the 8-byte record size — at offset 9, entirely inside the file
(and an in-bounds pool at offset 9, length 23). -/
def exampleFileUnaligned : List Nat :=
  LOC_DATABASE_MAGIC ++ [0, 0] ++
    ([0, 0, 0, 0] ++ [0, 0, 0, 0] ++ [0, 0, 0, 0, 0, 0, 0, 0] ++
     [0, 0, 0, 9] ++ [0, 0, 0, 23] ++ [0, 0, 0, 9] ++ [0, 0, 0, 12])

/-- C10 counterexample: the AS section of `exampleFileUnaligned` has length
12, not a multiple of the record size, and lies entirely inside the file, yet
opening fails with `-EINVAL` — the `mmap` file offset 9 is not page-aligned —
rather than succeeding as the claim states. -/
theorem as_section_partial_record_counterexample :
    (parse_header_v0 ((exampleFileUnaligned.drop 9).take 32)).as_offset = 9 ∧
    (parse_header_v0 ((exampleFileUnaligned.drop 9).take 32)).as_length = 12 ∧
    loc_database_new exampleFileUnaligned = .error (-EINVAL) :=
  ⟨by rfl, by rfl, by rfl⟩

/-- C10 (amended): the AS-section reader computes the record count as the
integer floor of the declared length divided by the 8-byte record size, and —
provided the section is mappable at all, its declared offset a multiple of
the page size, so that the `mmap` call does not fail — a length that is not a
multiple of 8 still succeeds, the trailing partial record silently ignored:
for a section within the file the parsed records cover exactly
`as_length / 8` full records. -/
theorem loc_database_read_as_section_v0_spec (file : List Nat)
    (as_offset as_length : Nat)
    (halign : as_offset % PAGE_SIZE = 0)
    (hbound : as_offset + as_length ≤ file.length) :
    ∃ recs, loc_database_read_as_section_v0 file as_offset as_length
        = .ok (recs, as_length / 8) ∧ recs.length = as_length / 8 := by
  unfold loc_database_read_as_section_v0
  rw [if_neg (by simp [halign])]
  refine ⟨_, rfl, ?_⟩
  rw [parse_as_records_length]
  simp only [List.length_take, List.length_drop]
  omega

/-- Witness for C10 (amended): a 20-byte file, section of 12 bytes at the
page-aligned offset 0 — one full record, four trailing bytes ignored, count
12 / 8 = 1. -/
theorem loc_database_read_as_section_v0_spec_witness :
    0 % PAGE_SIZE = 0 ∧ 0 + 12 ≤ (List.replicate 20 (0 : Nat)).length ∧
    ∃ recs, loc_database_read_as_section_v0 (List.replicate 20 0) 0 12
        = .ok (recs, 12 / 8) ∧ recs.length = 12 / 8 :=
  ⟨by decide, by decide,
   loc_database_read_as_section_v0_spec (List.replicate 20 0) 0 12
     (by decide) (by decide)⟩

/-- The empty database (no AS records). -/
def emptyDb : loc_database :=
  { version := 0, created_at := 0, vendor := 0, description := 0,
    pool := [], as_v0 := [], as_count := 0 }

/-- C9: on a database whose AS table is empty the binary search immediately
returns success with an absent result (`hi = -1 < 0 = lo`, so the loop body —
and with it any record fetch — never runs); and `loc_database_fetch_as`
rejects every position at or past `as_count` with `-EINVAL` instead of
reading out of bounds. -/
theorem loc_database_get_as_empty (db : loc_database) (number : Nat) :
    (db.as_count = 0 → loc_database_get_as db number = .ok none) ∧
    (∀ pos : Int, (db.as_count : Int) ≤ pos →
      loc_database_fetch_as db pos = .error (-EINVAL)) := by
  constructor
  · intro h0
    unfold loc_database_get_as
    rw [h0]
    rw [loc_database_get_as_loop]
    norm_num
  · intro pos hpos
    unfold loc_database_fetch_as
    rw [if_neg (by omega)]

/-- Witness for C9 at the empty database. -/
theorem loc_database_get_as_empty_witness :
    loc_database_get_as emptyDb 7 = .ok none ∧
    loc_database_fetch_as emptyDb 5 = .error (-EINVAL) :=
  ⟨(loc_database_get_as_empty emptyDb 7).1 rfl,
   (loc_database_get_as_empty emptyDb 7).2 5 (by decide)⟩

/-! ## Binary-search correctness (loc_database_get_as) -/

theorem midpoint_bounds (lo hi : Int) (h : lo ≤ hi) :
    lo ≤ (lo + hi) / 2 ∧ (lo + hi) / 2 ≤ hi := by
  constructor
  · have h1 : 2 * lo ≤ lo + hi := by omega
    have h2 := Int.ediv_le_ediv (by norm_num : (0:Int) < 2) h1
    rwa [Int.mul_ediv_cancel_left lo (by norm_num)] at h2
  · have h1 : lo + hi ≤ 2 * hi := by omega
    have h2 := Int.ediv_le_ediv (by norm_num : (0:Int) < 2) h1
    rwa [Int.mul_ediv_cancel_left hi (by norm_num)] at h2

theorem loc_database_fetch_as_ok (db : loc_database) (pos : Int)
    (hv : db.version = 0) (h0 : 0 ≤ pos) (h1 : pos < (db.as_count : Int)) :
    loc_database_fetch_as db pos
      = .ok (loc_as_new_from_database_v0 db.pool (db.as_v0.getD pos.toNat default)) := by
  unfold loc_database_fetch_as
  rw [if_pos ⟨h0, h1⟩, hv]

theorem getD_eq_get (l : List loc_database_as_v0) (k : Nat) (hk : k < l.length) :
    l.getD k default = l.get ⟨k, hk⟩ := by
  rw [List.getD_eq_getElem?_getD, List.getElem?_eq_getElem hk]
  rfl

/-- The loop invariant: as long as no record outside positions `[lo, hi]`
carries the queried number, the loop finds the matching record in `[lo, hi]`
when one exists and reports absence otherwise. -/
theorem loc_database_get_as_loop_spec (db : loc_database) (number : Nat)
    (hv : db.version = 0) (hc : db.as_count = db.as_v0.length)
    (hsorted : List.Pairwise (fun r s => r.asn < s.asn) db.as_v0) :
    ∀ (n : Nat) (lo hi : Int), (hi + 1 - lo).toNat ≤ n →
      0 ≤ lo → hi < (db.as_count : Int) →
      (∀ k : Nat, k < db.as_v0.length → ((k : Int) < lo ∨ hi < (k : Int)) →
        (db.as_v0.getD k default).asn ≠ number) →
      ((∀ r ∈ db.as_v0, r.asn ≠ number) →
        loc_database_get_as_loop db number lo hi = .ok none) ∧
      (∀ k : Nat, k < db.as_v0.length → (db.as_v0.getD k default).asn = number →
        loc_database_get_as_loop db number lo hi
          = .ok (some (loc_as_new_from_database_v0 db.pool (db.as_v0.getD k default)))) := by
  have hs : ∀ k1 k2 : Nat, k1 < db.as_v0.length → k2 < db.as_v0.length → k1 < k2 →
      (db.as_v0.getD k1 default).asn < (db.as_v0.getD k2 default).asn := by
    intro k1 k2 h1 h2 hlt
    rw [getD_eq_get _ _ h1, getD_eq_get _ _ h2]
    exact List.pairwise_iff_get.mp hsorted ⟨k1, h1⟩ ⟨k2, h2⟩ hlt
  intro n
  induction n with
  | zero =>
    intro lo hi hn hlo hhi hout
    have hnl : ¬ lo ≤ hi := by omega
    rw [loc_database_get_as_loop, dif_neg hnl]
    constructor
    · intro _; rfl
    · intro k hk hkeq
      exact absurd hkeq (hout k hk (by omega))
  | succ n ih =>
    intro lo hi hn hlo hhi hout
    by_cases h : lo ≤ hi
    · have hmid := midpoint_bounds lo hi h
      have h0i : 0 ≤ (lo + hi) / 2 := by omega
      have h1i : (lo + hi) / 2 < (db.as_count : Int) := by omega
      have hki : ((lo + hi) / 2).toNat < db.as_v0.length := by omega
      have hfetch := loc_database_fetch_as_ok db ((lo + hi) / 2) hv h0i h1i
      have hcast : ((((lo + hi) / 2).toNat : Nat) : Int) = (lo + hi) / 2 := by omega
      rw [loc_database_get_as_loop, dif_pos h, hfetch]
      dsimp only
      by_cases heq :
        (loc_as_new_from_database_v0 db.pool
          (db.as_v0.getD ((lo + hi) / 2).toNat default)).number = number
      · rw [if_pos heq]
        have hieq : (db.as_v0.getD ((lo + hi) / 2).toNat default).asn = number := heq
        constructor
        · intro hnone
          have hmem : db.as_v0.getD ((lo + hi) / 2).toNat default ∈ db.as_v0 := by
            rw [getD_eq_get _ _ hki]
            exact List.get_mem _ _ _
          exact absurd hieq (hnone _ hmem)
        · intro k hk hkeq
          have hkk : k = ((lo + hi) / 2).toNat := by
            by_contra hne
            rcases Nat.lt_or_ge k (((lo + hi) / 2).toNat) with hlt | hge
            · have := hs k _ hk hki hlt
              omega
            · have hgt : ((lo + hi) / 2).toNat < k := by omega
              have := hs _ k hki hk hgt
              omega
          rw [hkk]
      · rw [if_neg heq]
        by_cases hlt :
          (loc_as_new_from_database_v0 db.pool
            (db.as_v0.getD ((lo + hi) / 2).toNat default)).number < number
        · rw [if_pos hlt]
          have hiasn : (db.as_v0.getD ((lo + hi) / 2).toNat default).asn < number := hlt
          refine ih ((lo + hi) / 2 + 1) hi (by omega) (by omega) hhi ?_
          intro k hk hside
          rcases hside with hl | hr
          · rcases Nat.lt_or_ge k (((lo + hi) / 2).toNat) with hklt | hkge
            · have := hs k _ hk hki hklt
              omega
            · have hkeq : k = ((lo + hi) / 2).toNat := by omega
              rw [hkeq]
              omega
          · exact hout k hk (Or.inr hr)
        · rw [if_neg hlt]
          have hiasn : number < (db.as_v0.getD ((lo + hi) / 2).toNat default).asn := by
            have h1 : (loc_as_new_from_database_v0 db.pool
              (db.as_v0.getD ((lo + hi) / 2).toNat default)).number
                = (db.as_v0.getD ((lo + hi) / 2).toNat default).asn := rfl
            omega
          refine ih lo ((lo + hi) / 2 - 1) (by omega) hlo (by omega) ?_
          intro k hk hside
          rcases hside with hl | hr
          · exact hout k hk (Or.inl hl)
          · rcases Nat.lt_or_ge (((lo + hi) / 2).toNat) k with hkgt | hkle
            · have := hs _ k hki hk hkgt
              omega
            · have hkeq : k = ((lo + hi) / 2).toNat := by omega
              rw [hkeq]
              omega
    · rw [loc_database_get_as_loop, dif_neg h]
      constructor
      · intro _; rfl
      · intro k hk hkeq
        exact absurd hkeq (hout k hk (by omega))

/-- C1: on an opened version-0 database whose AS table (fully backed by the
file) is sorted strictly ascending by ASN, `loc_database_get_as` returns
success with the matching record — its name resolved through the string
pool — when a record with the queried number exists, and success with an
absent result otherwise; it never returns an error. -/
theorem loc_database_get_as_spec (db : loc_database) (number : Nat)
    (hv : db.version = 0) (hc : db.as_count = db.as_v0.length)
    (hsorted : List.Pairwise (fun r s => r.asn < s.asn) db.as_v0) :
    (∀ r ∈ db.as_v0, r.asn = number →
      loc_database_get_as db number
        = .ok (some (loc_as_new_from_database_v0 db.pool r))) ∧
    ((∀ r ∈ db.as_v0, r.asn ≠ number) →
      loc_database_get_as db number = .ok none) := by
  have hspec := loc_database_get_as_loop_spec db number hv hc hsorted
    db.as_count 0 ((db.as_count : Int) - 1) (by omega) (by omega) (by omega)
    (by intro k hk hside; omega)
  constructor
  · intro r hr hreq
    obtain ⟨k, hk, hkr⟩ := List.mem_iff_getElem.mp hr
    have hgd : db.as_v0.getD k default = r := by
      rw [List.getD_eq_getElem?_getD, List.getElem?_eq_getElem hk, Option.getD_some, hkr]
    have := hspec.2 k hk (by rw [hgd]; exact hreq)
    rw [hgd] at this
    exact this
  · exact hspec.1

/-- A concrete sorted two-record database. -/
def exampleDb : loc_database :=
  { version := 0, created_at := 0, vendor := 0, description := 0,
    pool := [0], as_v0 := [⟨1, 0⟩, ⟨5, 0⟩], as_count := 2 }

/-- Witness for C1 on `exampleDb`: ASN 5 is found (name resolved through the
pool), ASN 3 is reported absent with success. -/
theorem loc_database_get_as_spec_witness :
    loc_database_get_as exampleDb 5
      = .ok (some (loc_as_new_from_database_v0 exampleDb.pool ⟨5, 0⟩)) ∧
    loc_database_get_as exampleDb 3 = .ok none :=
  ⟨(loc_database_get_as_spec exampleDb 5 rfl rfl
      (by decide)).1 ⟨5, 0⟩ (by decide) rfl,
   (loc_database_get_as_spec exampleDb 3 rfl rfl
      (by decide)).2 (by decide)⟩

/-! ## Termination of the binary search (iteration counting) -/

/-- The same binary-search loop with an explicit iteration budget: `none`
means the budget was exhausted before the loop returned. -/
def loc_database_get_as_steps (db : loc_database) (number : Nat) :
    Nat → Int → Int → Option (Except Int (Option loc_as))
  | 0, _, _ => none
  | fuel + 1, lo, hi =>
    if lo ≤ hi then
      match loc_database_fetch_as db ((lo + hi) / 2) with
      | .error r => some (.error r)
      | .ok as =>
        if as.number = number then some (.ok (some as))
        else if as.number < number then
          loc_database_get_as_steps db number fuel ((lo + hi) / 2 + 1) hi
        else
          loc_database_get_as_steps db number fuel lo ((lo + hi) / 2 - 1)
    else some (.ok none)

theorem loc_database_get_as_steps_complete (db : loc_database) (number : Nat) :
    ∀ (fuel : Nat) (lo hi : Int), 1 ≤ fuel →
      (hi + 1 - lo).toNat < 2 ^ (fuel - 1) →
      loc_database_get_as_steps db number fuel lo hi
        = some (loc_database_get_as_loop db number lo hi) := by
  intro fuel
  induction fuel with
  | zero => intro lo hi h1 _; omega
  | succ f ihf =>
    intro lo hi _ hlen
    by_cases h : lo ≤ hi
    · have hmid := midpoint_bounds lo hi h
      have hd : 0 ≤ hi - lo := by omega
      have hi_eq : (lo + hi) / 2 = lo + (hi - lo) / 2 := by
        have hre : lo + hi = (hi - lo) + lo * 2 := by ring
        rw [hre, Int.add_mul_ediv_right _ _ (by norm_num : (2:Int) ≠ 0)]
        ring
      have hdiv : (hi - lo) / 2 = (((hi - lo).toNat / 2 : Nat) : Int) := by
        rw [Int.ofNat_ediv]
        rw [Int.toNat_of_nonneg hd]
        norm_num
      have hf1 : 1 ≤ f := by
        by_contra hf0
        have : f = 0 := by omega
        subst this
        simp at hlen
        omega
      have hre2 : f = (f - 1) + 1 := by omega
      have hpow : (2:Nat) ^ f = 2 * 2 ^ (f - 1) := by
        conv_lhs => rw [hre2, pow_succ]
        ring
      rw [loc_database_get_as_steps, if_pos h,
        loc_database_get_as_loop, dif_pos h]
      cases hfetch : loc_database_fetch_as db ((lo + hi) / 2) with
      | error r => rfl
      | ok as =>
        dsimp only
        by_cases heq : as.number = number
        · rw [if_pos heq, if_pos heq]
        · rw [if_neg heq, if_neg heq]
          by_cases hlt : as.number < number
          · rw [if_pos hlt, if_pos hlt]
            refine ihf ((lo + hi) / 2 + 1) hi hf1 ?_
            rw [hi_eq, hdiv]
            have hsf : f - 1 + 1 = f := by omega
            simp only [Nat.succ_sub_one] at hlen
            omega
          · rw [if_neg hlt, if_neg hlt]
            refine ihf lo ((lo + hi) / 2 - 1) hf1 ?_
            rw [hi_eq, hdiv]
            simp only [Nat.succ_sub_one] at hlen
            omega
    · rw [loc_database_get_as_steps, if_neg h,
        loc_database_get_as_loop, dif_neg h]

/-- C8: the binary-search loop of `loc_database_get_as` terminates, within a
number of iterations logarithmic in the table size: an explicit iteration
budget of `log2 as_count + 2` always suffices and yields the loop's result. -/
theorem loc_database_get_as_terminates (db : loc_database) (number : Nat) :
    loc_database_get_as_steps db number (Nat.log2 db.as_count + 2) 0
        ((db.as_count : Int) - 1)
      = some (loc_database_get_as db number) := by
  unfold loc_database_get_as
  apply loc_database_get_as_steps_complete db number _ 0 _ (by omega)
  have hlen : ((db.as_count : Int) - 1 + 1 - 0).toNat = db.as_count := by omega
  rw [hlen]
  have hexp : Nat.log2 db.as_count + 2 - 1 = Nat.log2 db.as_count + 1 := by omega
  rw [hexp]
  by_cases h0 : db.as_count = 0
  · rw [h0]
    positivity
  · exact (Nat.log2_lt h0).mp (Nat.lt_succ_self _)

end Libloc
